import Mathlib

/-! # AliDNS challenge provider (`alidns/alidns.go`)

A shallow embedding of the DNS-01 adapter: zone resolution with pagination
(`getHostedZone`), relative record names (`extractRecordName`), record creation
(`Present`) and record removal (`CleanUp`).

* Go strings are byte sequences; a byte is a natural number and a string a list
  of bytes.  `str` writes an ASCII literal.
* The vendor SDK client is a record of four operations over an abstract
  provider state.  Every call made through the client is appended to a trace
  together with the answer it received.
* A Go `error` is represented by its message text; `nil` is `none`.
* The SDK declares the paging fields of a domain listing response as `int64`;
  the product in the loop condition is reduced to the signed 64-bit range.
* The unbounded `for` loop of `getHostedZone` is driven by a fuel counter;
  running out of fuel is `none`.
-/

namespace AliDNS

/-- A Go string: a sequence of bytes. -/
abbrev GoString := List Nat

/-- The bytes of an ASCII literal. -/
def str (s : String) : GoString := s.toList.map Char.toNat

/-- A Go error value, represented by the text of its message. -/
abbrev Error := GoString

/-- Reduction of an integer to the signed 64-bit range (Go `int64` and, on a
64-bit platform, `int` arithmetic wraps around). -/
def wrapInt64 (x : Int) : Int := (x + 2 ^ 63) % 2 ^ 64 - 2 ^ 63

/-- Modelled from the spec: `util.UnFqdn` is an imported helper whose body is not
part of the sources; the spec describes it as a pure helper that strips one
trailing root-zone separator. -/
def UnFqdn (name : GoString) : GoString :=
  if name.getLast? = some 46 then name.dropLast else name

/-- Go `strings.Index(s, substr)`: the index of the first instance of `substr` in
`s`, or `-1` if `substr` is not present in `s`. -/
def stringsIndex : GoString → GoString → Int
  | [], substr => if substr = [] then 0 else -1
  | b :: s, substr =>
    if substr <+: b :: s then 0
    else
      let r := stringsIndex s substr
      if r = -1 then -1 else r + 1

/-- The method `extractRecordName` (alidns.go, lines 127-133). -/
def extractRecordName (fqdn domain : GoString) : GoString :=
  let name := UnFqdn fqdn
  let idx := stringsIndex name (str "." ++ domain)
  if idx ≠ -1 then name.take idx.toNat else name

/-! ## The provider interface -/

/-- The fields of `dns.DomainInDescribeDomains` that the adapter reads. -/
structure DomainInDescribeDomains where
  DomainId : GoString
  DomainName : GoString
  deriving DecidableEq, Repr

/-- The fields of `dns.DescribeDomainsResponse` that the adapter reads
(`Domain` stands for `Domains.Domain`). -/
structure DescribeDomainsResponse where
  PageNumber : Int
  PageSize : Int
  TotalCount : Int
  Domain : List DomainInDescribeDomains
  deriving DecidableEq, Repr

/-- The fields of `dns.Record` that the adapter reads. -/
structure Record where
  RR : GoString
  RecordId : GoString
  Value : GoString
  deriving DecidableEq, Repr

/-- The fields of `dns.AddDomainRecordRequest` that the adapter sets. -/
structure AddDomainRecordRequest where
  Type_ : GoString
  DomainName : GoString
  RR : GoString
  Value : GoString
  deriving DecidableEq, Repr

/-- The four SDK operations used through `c.dnsClient`, over a provider state `σ`.
Each takes the request fields set by the adapter and gives the answer and the
provider's next state. -/
structure DnsClient (σ : Type) where
  /-- `DescribeDomains` with the request's `PageNumber`. -/
  DescribeDomains : σ → Int → Except Error DescribeDomainsResponse × σ
  /-- `DescribeDomainRecords` with the request's `DomainName` and `PageSize`;
  the answer is `DomainRecords.Record`. -/
  DescribeDomainRecords : σ → GoString → Int → Except Error (List Record) × σ
  /-- `AddDomainRecord`; `none` is a nil error. -/
  AddDomainRecord : σ → AddDomainRecordRequest → Option Error × σ
  /-- `DeleteDomainRecord` with the request's `RecordId`; `none` is a nil error. -/
  DeleteDomainRecord : σ → GoString → Option Error × σ

deriving instance DecidableEq for Except

/-- One call made through the client, with the answer it received. -/
inductive Event where
  | describeDomains (pageNumber : Int) (answer : Except Error DescribeDomainsResponse)
  | describeDomainRecords (domainName : GoString) (pageSize : Int)
      (answer : Except Error (List Record))
  | addDomainRecord (request : AddDomainRecordRequest) (answer : Option Error)
  | deleteDomainRecord (recordId : GoString) (answer : Option Error)
  deriving DecidableEq

/-- The provider's state and the calls made so far, oldest first. -/
structure World (σ : Type) where
  provider : σ
  trace : List Event
  deriving DecidableEq

/-- The page numbers of the domain-listing calls in a trace, in order. -/
def requestedPages : List Event → List Int
  | [] => []
  | Event.describeDomains p _ :: es => p :: requestedPages es
  | _ :: es => requestedPages es

/-- The domain entries received from the successful domain-listing calls of a
trace, in order. -/
def receivedDomains : List Event → List DomainInDescribeDomains
  | [] => []
  | Event.describeDomains _ (Except.ok r) :: es => r.Domain ++ receivedDomains es
  | _ :: es => receivedDomains es

/-- The add-record requests in a trace, in order. -/
def addRequests : List Event → List AddDomainRecordRequest
  | [] => []
  | Event.addDomainRecord r _ :: es => r :: addRequests es
  | _ :: es => addRequests es

/-- The record ids of the delete-record calls in a trace, in order. -/
def deletedIds : List Event → List GoString
  | [] => []
  | Event.deleteDomainRecord i _ :: es => i :: deletedIds es
  | _ :: es => deletedIds es

/-- Whether an event is a domain-listing call. -/
def Event.isDescribeDomains : Event → Bool
  | Event.describeDomains _ _ => true
  | _ => false

/-- Whether an event is an add-record or a delete-record call. -/
def Event.isMutation : Event → Bool
  | Event.addDomainRecord _ _ => true
  | Event.deleteDomainRecord _ _ => true
  | _ => false

variable {σ : Type}

/-- The call `c.dnsClient.DescribeDomains(request)`. -/
def callDescribeDomains (c : DnsClient σ) (pageNumber : Int) (w : World σ) :
    Except Error DescribeDomainsResponse × World σ :=
  let r := c.DescribeDomains w.provider pageNumber
  (r.1, ⟨r.2, w.trace ++ [Event.describeDomains pageNumber r.1]⟩)

/-- The call `c.dnsClient.DescribeDomainRecords(request)`. -/
def callDescribeDomainRecords (c : DnsClient σ) (domainName : GoString) (pageSize : Int)
    (w : World σ) : Except Error (List Record) × World σ :=
  let r := c.DescribeDomainRecords w.provider domainName pageSize
  (r.1, ⟨r.2, w.trace ++ [Event.describeDomainRecords domainName pageSize r.1]⟩)

/-- The call `c.dnsClient.AddDomainRecord(request)`. -/
def callAddDomainRecord (c : DnsClient σ) (request : AddDomainRecordRequest) (w : World σ) :
    Option Error × World σ :=
  let r := c.AddDomainRecord w.provider request
  (r.1, ⟨r.2, w.trace ++ [Event.addDomainRecord request r.1]⟩)

/-- The call `c.dnsClient.DeleteDomainRecord(request)`. -/
def callDeleteDomainRecord (c : DnsClient σ) (recordId : GoString) (w : World σ) :
    Option Error × World σ :=
  let r := c.DeleteDomainRecord w.provider recordId
  (r.1, ⟨r.2, w.trace ++ [Event.deleteDomainRecord recordId r.1]⟩)

/-! ## The adapter -/

/-- The pagination loop of `getHostedZone` (alidns.go, lines 59-77), entered with
page number `startPage` and the entries accumulated so far. -/
def describeAllDomains (c : DnsClient σ) :
    Nat → Int → List DomainInDescribeDomains → World σ →
      Option (Except Error (List DomainInDescribeDomains) × World σ)
  | 0, _, _, _ => none
  | fuel + 1, startPage, domains, w =>
    match callDescribeDomains c startPage w with
    | (Except.error err, w1) =>
      some (Except.error (str "alicloud: error describing domains: " ++ err), w1)
    | (Except.ok response, w1) =>
      let domains1 := domains ++ response.Domain
      if wrapInt64 (response.PageNumber * response.PageSize) ≥ response.TotalCount then
        some (Except.ok domains1, w1)
      else
        describeAllDomains c fuel (wrapInt64 (startPage + 1)) domains1 w1

/-- The scan of `getHostedZone` (alidns.go, lines 79-84): starting from the zero
value, every entry whose name equals the normalized zone overwrites the result. -/
def scanHostedZone (domains : List DomainInDescribeDomains) (resolvedZone : GoString) :
    DomainInDescribeDomains :=
  domains.foldl (fun hostedZone zone =>
    if zone.DomainName = UnFqdn resolvedZone then zone else hostedZone) ⟨[], []⟩

/-- The method `getHostedZone` (alidns.go, lines 56-90); the result is the Go triple
of identifier, name and error. -/
def getHostedZone (c : DnsClient σ) (fuel : Nat) (resolvedZone : GoString) (w : World σ) :
    Option ((GoString × GoString × Option Error) × World σ) :=
  match describeAllDomains c fuel 1 [] w with
  | none => none
  | some (Except.error err, w1) => some (([], [], some err), w1)
  | some (Except.ok domains, w1) =>
    let hostedZone := scanHostedZone domains resolvedZone
    if hostedZone.DomainId = [] then
      some (([], [], some (str "zone " ++ resolvedZone ++ str " not found in AliDNS")), w1)
    else
      some ((hostedZone.DomainId, hostedZone.DomainName, none), w1)

/-- The method `newTxtRecord` (alidns.go, lines 92-99). -/
def newTxtRecord (zone fqdn value : GoString) : AddDomainRecordRequest :=
  { Type_ := str "TXT"
    DomainName := zone
    RR := extractRecordName fqdn zone
    Value := value }

/-- The method `findTxtRecords` (alidns.go, lines 101-125); the result is the Go pair of
records and error. -/
def findTxtRecords (c : DnsClient σ) (fuel : Nat) (domain fqdn : GoString) (w : World σ) :
    Option ((List Record × Option Error) × World σ) :=
  match getHostedZone c fuel domain w with
  | none => none
  | some ((_, _, some err), w1) => some (([], some err), w1)
  | some ((_, zoneName, none), w1) =>
    match callDescribeDomainRecords c zoneName 500 w1 with
    | (Except.error err, w2) =>
      some (([], some (str "alicloud: error describing domain records: " ++ err)), w2)
    | (Except.ok result, w2) =>
      let recordName := extractRecordName fqdn zoneName
      some ((result.filter (fun record => record.RR = recordName), none), w2)

/-- The deletion loop of `CleanUp` (alidns.go, lines 43-53). -/
def deleteMatching (c : DnsClient σ) (delKey : GoString) :
    List Record → World σ → Option Error × World σ
  | [], w => (none, w)
  | rec :: records, w =>
    if delKey = rec.Value then
      match callDeleteDomainRecord c rec.RecordId w with
      | (some err, w1) => (some (str "alicloud: error deleting domain record: " ++ err), w1)
      | (none, w1) => deleteMatching c delKey records w1
    else deleteMatching c delKey records w

/-- The method `CleanUp` (alidns.go, lines 33-54). -/
def CleanUp (c : DnsClient σ) (fuel : Nat) (resolvedZone resolvedFQDN delKey : GoString)
    (w : World σ) : Option (Option Error × World σ) :=
  match findTxtRecords c fuel resolvedZone resolvedFQDN w with
  | none => none
  | some ((_, some err), w1) =>
    some (some (str "alicloud: error finding txt records: " ++ err), w1)
  | some ((records, none), w1) =>
    match getHostedZone c fuel resolvedZone w1 with
    | none => none
    | some ((_, _, some err), w2) => some (some (str "alicloud: " ++ err), w2)
    | some ((_, _, none), w2) => some (deleteMatching c delKey records w2)

/-- The method `Present` (alidns.go, lines 135-148). -/
def Present (c : DnsClient σ) (fuel : Nat) (ResolvedZone ResolvedFQDN Key : GoString)
    (w : World σ) : Option (Option Error × World σ) :=
  match getHostedZone c fuel ResolvedZone w with
  | none => none
  | some ((_, _, some err), w1) =>
    some (some (str "alicloud: error getting hosted zones: " ++ err), w1)
  | some ((_, zoneName, none), w1) =>
    let recordAttributes := newTxtRecord zoneName ResolvedFQDN Key
    match callAddDomainRecord c recordAttributes w1 with
    | (some err, w2) => some (some (str "alicloud: error adding domain record: " ++ err), w2)
    | (none, w2) => some (none, w2)

/-! ## Outcomes of a sequence of delete calls -/

/-- The provider state after delete calls for the given record ids, issued in order. -/
def stateAfterDeletes (c : DnsClient σ) : List GoString → σ → σ
  | [], st => st
  | i :: ids, st => stateAfterDeletes c ids (c.DeleteDomainRecord st i).2

/-- Whether delete calls for the given record ids, issued in order from the given
provider state, all succeed. -/
def deletesSucceed (c : DnsClient σ) : List GoString → σ → Bool
  | [], _ => true
  | i :: ids, st =>
    (c.DeleteDomainRecord st i).1.isNone && deletesSucceed c ids (c.DeleteDomainRecord st i).2

/-! ## Providers for concrete runs -/

/-- A scripted provider: its state counts the calls answered so far, and every
answer may depend on that count. -/
structure Script where
  domains : Nat → Int → Except Error DescribeDomainsResponse
  records : Nat → Except Error (List Record)
  add : Nat → Option Error
  delete : Nat → GoString → Option Error

/-- The client of a scripted provider. -/
def Script.client (s : Script) : DnsClient Nat where
  DescribeDomains n p := (s.domains n p, n + 1)
  DescribeDomainRecords n _ _ := (s.records n, n + 1)
  AddDomainRecord n _ := (s.add n, n + 1)
  DeleteDomainRecord n i := (s.delete n i, n + 1)

/-- A domain listing served in one page. -/
def onePage (domains : List DomainInDescribeDomains) (p : Int) :
    Except Error DescribeDomainsResponse :=
  Except.ok ⟨p, 20, domains.length, domains⟩

/-- A domain listing of two zones. -/
def exampleDomains : List DomainInDescribeDomains :=
  [⟨str "1", str "example.org"⟩, ⟨str "2", str "example.com"⟩]

/-- A record listing in which `r1` and `r4` carry the relative name `_acme-challenge`
and the value `token`. -/
def exampleRecords : List Record :=
  [⟨str "_acme-challenge", str "r1", str "token"⟩, ⟨str "www", str "r2", str "token"⟩,
   ⟨str "_acme-challenge", str "r3", str "other"⟩, ⟨str "_acme-challenge", str "r4", str "token"⟩]

/-- A provider on which every call succeeds. -/
def healthyScript : Script :=
  ⟨fun _ => onePage exampleDomains, fun _ => Except.ok exampleRecords, fun _ => none,
    fun _ _ => none⟩

/-- A provider whose domain listing fails from its `n`-th answer on. -/
def failingDomainsScript (n : Nat) : Script :=
  ⟨fun k => if n ≤ k then fun _ => Except.error (str "timeout") else onePage exampleDomains,
    fun _ => Except.ok exampleRecords, fun _ => none, fun _ _ => none⟩

/-- A provider whose record listing fails. -/
def failingRecordsScript : Script :=
  ⟨fun _ => onePage exampleDomains, fun _ => Except.error (str "timeout"), fun _ => none,
    fun _ _ => none⟩

/-! ## A model provider with a record store -/

/-- The model provider of the agreement property between `Present` and `CleanUp`:
its state is the record store, a list of records.  The domain listing is answered
by `listDomains` and leaves the store alone; the record listing answers with the
first `pageSize` records of the store; add-record appends a record with the
requested relative name and value under the id `newId store`; delete-record removes
the records with the given id. -/
def modelClient (listDomains : Int → Except Error DescribeDomainsResponse)
    (newId : List Record → GoString) : DnsClient (List Record) where
  DescribeDomains store p := (listDomains p, store)
  DescribeDomainRecords store _ pageSize := (Except.ok (store.take pageSize.toNat), store)
  AddDomainRecord store request :=
    (none, store ++ [⟨request.RR, newId store, request.Value⟩])
  DeleteDomainRecord store i := (none, store.filter (fun r => decide (r.RecordId ≠ i)))

/-- An id longer than every id in the store. -/
def longerId (store : List Record) : GoString :=
  List.replicate ((store.map (fun r => r.RecordId.length)).sum + 1) 120

/-! ## Relative record names -/

theorem stringsIndex_ge (s substr : GoString) : -1 ≤ stringsIndex s substr := by
  induction s with
  | nil => unfold stringsIndex; split <;> omega
  | cons b s ih =>
    unfold stringsIndex
    split
    · omega
    · simp only []
      split <;> omega

theorem stringsIndex_eq_neg_one_iff (s substr : GoString) :
    stringsIndex s substr = -1 ↔ ¬ substr <:+: s := by
  induction s with
  | nil =>
    unfold stringsIndex
    by_cases h : substr = []
    · simp [h]
    · simp [h]
  | cons b s ih =>
    have hge := stringsIndex_ge s substr
    unfold stringsIndex
    rw [List.infix_cons_iff]
    by_cases hp : substr <+: b :: s
    · simp [hp]
    · simp only [hp, if_false, false_or]
      rw [← ih]
      by_cases hr : stringsIndex s substr = -1
      · simp [hr]
      · simp only [hr, if_false, iff_false]
        omega

theorem stringsIndex_first (s substr : GoString) (h : stringsIndex s substr ≠ -1) :
    substr <+: s.drop (stringsIndex s substr).toNat
      ∧ ∀ j, j < (stringsIndex s substr).toNat → ¬ substr <+: s.drop j := by
  induction s with
  | nil =>
    unfold stringsIndex at h ⊢
    by_cases he : substr = []
    · simp [he]
    · simp [he] at h
  | cons b s ih =>
    have hge := stringsIndex_ge s substr
    unfold stringsIndex at h ⊢
    by_cases hp : substr <+: b :: s
    · simp [hp]
    · simp only [hp, if_false] at h ⊢
      by_cases hr : stringsIndex s substr = -1
      · simp [hr] at h
      · simp only [hr, if_false] at h ⊢
        obtain ⟨hpre, hfirst⟩ := ih hr
        have hnat : (stringsIndex s substr + 1).toNat = (stringsIndex s substr).toNat + 1 := by
          omega
        rw [hnat]
        refine ⟨by simpa using hpre, ?_⟩
        intro j hj
        cases j with
        | zero => simpa using hp
        | succ j => simpa using hfirst j (by omega)

/-- When the only occurrence of `"." + Z` in the normalized FQDN is the trailing
one, `extractRecordName` returns the prefix before it. -/
theorem extractRecordName_single_occurrence (F Z P : GoString)
    (hname : UnFqdn F = P ++ (str "." ++ Z))
    (honly : ∀ j, j < P.length → ¬ (str "." ++ Z) <+: (UnFqdn F).drop j) :
    extractRecordName F Z = P := by
  have hinfix : (str "." ++ Z) <:+: UnFqdn F := by
    rw [hname]; exact (List.suffix_append _ _).isInfix
  have hidx : stringsIndex (UnFqdn F) (str "." ++ Z) ≠ -1 :=
    fun hneg => (stringsIndex_eq_neg_one_iff _ _).mp hneg hinfix
  obtain ⟨hpre, hfirst⟩ := stringsIndex_first _ _ hidx
  have hat : (str "." ++ Z) <+: (UnFqdn F).drop P.length := by
    rw [hname, List.drop_left]
  have hle : (stringsIndex (UnFqdn F) (str "." ++ Z)).toNat ≤ P.length := by
    by_contra hlt
    exact hfirst P.length (by omega) hat
  have hge : P.length ≤ (stringsIndex (UnFqdn F) (str "." ++ Z)).toNat := by
    by_contra hlt
    exact honly _ (by omega) hpre
  have heq : (stringsIndex (UnFqdn F) (str "." ++ Z)).toNat = P.length := by omega
  simp only [extractRecordName, hidx, ne_eq, not_false_eq_true, if_true, heq]
  rw [hname, List.take_left]

/-- C1 (evaluation at the failing input): the normalized FQDN
`_acme-challenge.example.com.example.com` ends with `.example.com`, and the prefix
before that trailing suffix is `_acme-challenge.example.com`, yet
`extractRecordName` cuts at the first occurrence of `.example.com` and returns
`_acme-challenge`. -/
theorem extractRecordName_cuts_at_first_occurrence :
    UnFqdn (str "_acme-challenge.example.com.example.com.")
        = str "_acme-challenge.example.com" ++ (str "." ++ str "example.com")
      ∧ extractRecordName (str "_acme-challenge.example.com.example.com.") (str "example.com")
        = str "_acme-challenge"
      ∧ extractRecordName (str "_acme-challenge.example.com.example.com.") (str "example.com")
        ≠ str "_acme-challenge.example.com" := by
  decide

/-- C2: when the normalized FQDN does not contain `"." + Z` as a substring,
`extractRecordName` returns the normalized FQDN unchanged. -/
theorem extractRecordName_no_zone (F Z : GoString)
    (h : ¬ (str "." ++ Z) <:+: UnFqdn F) :
    extractRecordName F Z = UnFqdn F := by
  have hidx : stringsIndex (UnFqdn F) (str "." ++ Z) = -1 :=
    (stringsIndex_eq_neg_one_iff _ _).mpr h
  simp [extractRecordName, hidx]

theorem extractRecordName_no_zone_witness :
    ¬ (str "." ++ str "example.com") <:+: UnFqdn (str "_acme-challenge.example.org.")
      ∧ extractRecordName (str "_acme-challenge.example.org.") (str "example.com")
        = UnFqdn (str "_acme-challenge.example.org.") :=
  ⟨by decide, extractRecordName_no_zone _ _ (by decide)⟩

/-! ## Zone resolution: the scan -/

theorem foldl_scan (z : GoString) (domains : List DomainInDescribeDomains)
    (init : DomainInDescribeDomains) :
    domains.foldl (fun hostedZone zone => if zone.DomainName = z then zone else hostedZone) init
      = ((domains.filter (fun d => decide (d.DomainName = z))).getLast?).getD init := by
  induction domains generalizing init with
  | nil => rfl
  | cons d ds ih =>
    rw [List.foldl_cons, ih]
    by_cases hd : d.DomainName = z
    · simp [hd, List.filter_cons, List.getLast?_cons]
    · simp [hd, List.filter_cons]

theorem scanHostedZone_eq (domains : List DomainInDescribeDomains) (resolvedZone : GoString) :
    scanHostedZone domains resolvedZone
      = ((domains.filter (fun d => decide (d.DomainName = UnFqdn resolvedZone))).getLast?).getD
          ⟨[], []⟩ :=
  foldl_scan _ _ _

/-- C3: when the loop has accumulated a listing with no entry whose domain name
equals the normalized input zone, `getHostedZone` returns the zone-not-found error
naming the zone, with empty identifier and name. -/
theorem getHostedZone_not_found (c : DnsClient σ) (fuel : Nat) (resolvedZone : GoString)
    (w w1 : World σ) (domains : List DomainInDescribeDomains)
    (hlist : describeAllDomains c fuel 1 [] w = some (Except.ok domains, w1))
    (hno : ∀ d ∈ domains, d.DomainName ≠ UnFqdn resolvedZone) :
    getHostedZone c fuel resolvedZone w
      = some (([], [], some (str "zone " ++ resolvedZone ++ str " not found in AliDNS")), w1) := by
  have hfilter : domains.filter (fun d => decide (d.DomainName = UnFqdn resolvedZone)) = [] := by
    rw [List.filter_eq_nil_iff]
    intro d hd
    simpa using hno d hd
  have hscan : scanHostedZone domains resolvedZone = ⟨[], []⟩ := by
    rw [scanHostedZone_eq, hfilter]; rfl
  simp [getHostedZone, hlist, hscan]

theorem getHostedZone_not_found_witness :
    getHostedZone
        (Script.client ⟨fun _ => onePage [⟨str "1", str "example.org"⟩, ⟨str "2", str "example.net"⟩],
          fun _ => Except.ok [], fun _ => none, fun _ _ => none⟩)
        1 (str "example.com.") ⟨0, []⟩
      = some (([], [], some (str "zone example.com. not found in AliDNS")),
          ⟨1, [Event.describeDomains 1
            (onePage [⟨str "1", str "example.org"⟩, ⟨str "2", str "example.net"⟩] 1)]⟩) :=
  getHostedZone_not_found _ 1 (str "example.com.") ⟨0, []⟩ _
    [⟨str "1", str "example.org"⟩, ⟨str "2", str "example.net"⟩] (by decide) (by decide)

/-- C9 (counterexample): the listing's only entry is named `example.com`, the
normalized input zone, but carries an empty identifier; `getHostedZone` does not
succeed with that entry, it returns the zone-not-found error. -/
theorem getHostedZone_empty_identifier :
    describeAllDomains
        (Script.client ⟨fun _ => onePage [⟨[], str "example.com"⟩],
          fun _ => Except.ok [], fun _ => none, fun _ _ => none⟩) 1 1 [] ⟨0, []⟩
      = some (Except.ok [⟨[], str "example.com"⟩],
          ⟨1, [Event.describeDomains 1 (onePage [⟨[], str "example.com"⟩] 1)]⟩)
    ∧ (⟨[], str "example.com"⟩ : DomainInDescribeDomains).DomainName
        = UnFqdn (str "example.com.")
    ∧ getHostedZone
        (Script.client ⟨fun _ => onePage [⟨[], str "example.com"⟩],
          fun _ => Except.ok [], fun _ => none, fun _ _ => none⟩) 1 (str "example.com.") ⟨0, []⟩
      = some (([], [], some (str "zone example.com. not found in AliDNS")),
          ⟨1, [Event.describeDomains 1 (onePage [⟨[], str "example.com"⟩] 1)]⟩) := by
  decide

/-- C9 (amended): when the accumulated listing has an entry whose domain name
equals the normalized input zone, and `d` is the last such entry, `getHostedZone`
succeeds with the identifier and the domain name of `d` provided the identifier of
`d` is not empty; when it is empty the result is the zone-not-found error. -/
theorem getHostedZone_last_match (c : DnsClient σ) (fuel : Nat) (resolvedZone : GoString)
    (w w1 : World σ) (domains : List DomainInDescribeDomains) (d : DomainInDescribeDomains)
    (hlist : describeAllDomains c fuel 1 [] w = some (Except.ok domains, w1))
    (hlast : (domains.filter (fun z => decide (z.DomainName = UnFqdn resolvedZone))).getLast?
      = some d) :
    (d.DomainId ≠ [] →
      getHostedZone c fuel resolvedZone w = some ((d.DomainId, d.DomainName, none), w1))
    ∧ (d.DomainId = [] →
      getHostedZone c fuel resolvedZone w
        = some (([], [], some (str "zone " ++ resolvedZone ++ str " not found in AliDNS")), w1)) := by
  have hscan : scanHostedZone domains resolvedZone = d := by
    rw [scanHostedZone_eq, hlast]; rfl
  constructor
  · intro hid
    simp [getHostedZone, hlist, hscan, hid]
  · intro hid
    simp [getHostedZone, hlist, hscan, hid]

theorem getHostedZone_last_match_witness :
    getHostedZone
        (Script.client ⟨fun _ => onePage [⟨str "1", str "example.com"⟩,
            ⟨str "2", str "example.net"⟩, ⟨str "3", str "example.com"⟩],
          fun _ => Except.ok [], fun _ => none, fun _ _ => none⟩)
        1 (str "example.com.") ⟨0, []⟩
      = some ((str "3", str "example.com", none),
          ⟨1, [Event.describeDomains 1 (onePage [⟨str "1", str "example.com"⟩,
            ⟨str "2", str "example.net"⟩, ⟨str "3", str "example.com"⟩] 1)]⟩) :=
  (getHostedZone_last_match _ 1 (str "example.com.") ⟨0, []⟩ _
    [⟨str "1", str "example.com"⟩, ⟨str "2", str "example.net"⟩, ⟨str "3", str "example.com"⟩]
    ⟨str "3", str "example.com"⟩ (by decide) (by decide)).1 (by decide)

/-! ## Zone resolution: pagination -/

theorem wrapInt64_of_range (x : Int) (h1 : -2 ^ 63 ≤ x) (h2 : x < 2 ^ 63) :
    wrapInt64 x = x := by
  unfold wrapInt64
  norm_num at h1 h2 ⊢
  omega

theorem describeAllDomains_from (c : DnsClient σ) (s t : Int) (n : Nat)
    (hprov : ∀ st p, ∃ ds, (c.DescribeDomains st p).1 = Except.ok ⟨p, s, t, ds⟩)
    (hs : 1 ≤ s) (hge : t ≤ n * s) (hleast : ∀ m : Nat, 1 ≤ m → m < n → m * s < t)
    (hov : n * s < 2 ^ 63) :
    ∀ (j k : Nat) (acc : List DomainInDescribeDomains) (w : World σ) (fuel : Nat),
      1 ≤ k → k + j = n → j + 1 ≤ fuel →
      ∃ tr w1, describeAllDomains c fuel (k : Int) acc w
          = some (Except.ok (acc ++ receivedDomains tr), w1)
        ∧ w1.trace = w.trace ++ tr ∧ tr.length = j + 1
        ∧ requestedPages tr = (List.range' k (j + 1)).map Int.ofNat := by
  intro j
  induction j with
  | zero =>
    intro k acc w fuel hk hkn hfuel
    obtain ⟨f, rfl⟩ : ∃ f, fuel = f + 1 := ⟨fuel - 1, by omega⟩
    obtain ⟨ds, hds⟩ := hprov w.provider (k : Int)
    have hkn' : k = n := by omega
    subst hkn'
    have hwrap : wrapInt64 ((k : Int) * s) = (k : Int) * s := by
      apply wrapInt64_of_range
      · have : (1 : Int) ≤ k := by exact_mod_cast hk
        nlinarith
      · exact hov
    refine ⟨[Event.describeDomains k (Except.ok ⟨k, s, t, ds⟩)],
      ⟨(c.DescribeDomains w.provider k).2,
        w.trace ++ [Event.describeDomains k (Except.ok ⟨k, s, t, ds⟩)]⟩, ?_, rfl, rfl, ?_⟩
    · simp [describeAllDomains, callDescribeDomains, hds, hwrap, hge, receivedDomains]
    · simp [requestedPages, List.range']
  | succ j ih =>
    intro k acc w fuel hk hkn hfuel
    obtain ⟨f, rfl⟩ : ∃ f, fuel = f + 1 := ⟨fuel - 1, by omega⟩
    obtain ⟨ds, hds⟩ := hprov w.provider (k : Int)
    have hk1 : (1 : Int) ≤ k := by exact_mod_cast hk
    have hkn1 : (k : Int) + 1 ≤ n := by
      have : k + 1 ≤ n := by omega
      exact_mod_cast this
    have hlt : (k : Int) * s < t := hleast k hk (by omega)
    have hwrap : wrapInt64 ((k : Int) * s) = (k : Int) * s := by
      apply wrapInt64_of_range
      · nlinarith
      · nlinarith
    have hnext : wrapInt64 ((k : Int) + 1) = ((k + 1 : Nat) : Int) := by
      rw [wrapInt64_of_range]
      · push_cast; rfl
      · norm_num; omega
      · nlinarith
    obtain ⟨tr, w1, hrun, htr, hlen, hpages⟩ :=
      ih (k + 1) (acc ++ ds)
        ⟨(c.DescribeDomains w.provider k).2,
          w.trace ++ [Event.describeDomains k (Except.ok ⟨k, s, t, ds⟩)]⟩
        f (by omega) (by omega) (by omega)
    refine ⟨Event.describeDomains k (Except.ok ⟨k, s, t, ds⟩) :: tr, w1, ?_, ?_, ?_, ?_⟩
    · rw [List.append_assoc] at hrun
      simp only [describeAllDomains, callDescribeDomains, hds, hwrap, ge_iff_le, not_le.mpr hlt,
        if_false, hnext, receivedDomains]
      exact hrun
    · simp [htr]
    · simp [hlen]
    · simp [requestedPages, hpages, List.range']

/-- C4 (amended): for a provider that answers the request for page `p` with page
number `p`, a constant page size `s ≥ 1` and a constant total count `t`, where `n`
is the least positive integer with `n * s ≥ t` and `n * s` does not exceed the
largest 64-bit signed integer, the pagination loop terminates (with any fuel of
at least `n`) after requesting exactly the pages `1, ..., n` in order, and the
accumulated listing is the concatenation of the `n` received pages in order. -/
theorem describeAllDomains_pages (c : DnsClient σ) (s t : Int) (n : Nat) (w : World σ)
    (fuel : Nat)
    (hprov : ∀ st p, ∃ ds, (c.DescribeDomains st p).1 = Except.ok ⟨p, s, t, ds⟩)
    (hs : 1 ≤ s) (hn : 1 ≤ n) (hge : t ≤ n * s)
    (hleast : ∀ m : Nat, 1 ≤ m → m < n → m * s < t)
    (hov : n * s < 2 ^ 63) (hfuel : n ≤ fuel) :
    ∃ tr w1, describeAllDomains c fuel 1 [] w = some (Except.ok (receivedDomains tr), w1)
      ∧ w1.trace = w.trace ++ tr ∧ tr.length = n
      ∧ requestedPages tr = (List.range' 1 n).map Int.ofNat := by
  obtain ⟨tr, w1, hrun, htr, hlen, hpages⟩ :=
    describeAllDomains_from c s t n hprov hs hge hleast hov (n - 1) 1 [] w fuel
      (le_refl 1) (by omega) (by omega)
  refine ⟨tr, w1, ?_, htr, by omega, ?_⟩
  · simpa using hrun
  · have hn' : n - 1 + 1 = n := by omega
    rw [hn'] at hpages
    exact hpages

theorem describeAllDomains_witness_least (m : Nat) (_h1 : 1 ≤ m) (h2 : m < 3) :
    (m : Int) * 500 < 1200 := by
  omega

theorem describeAllDomains_pages_witness :
    ∃ tr w1,
      describeAllDomains
          (Script.client ⟨fun _ p => Except.ok ⟨p, 500, 1200, [⟨str "7", str "example.com"⟩]⟩,
            fun _ => Except.ok [], fun _ => none, fun _ _ => none⟩) 3 1 [] ⟨0, []⟩
        = some (Except.ok (receivedDomains tr), w1)
      ∧ w1.trace = [] ++ tr ∧ tr.length = 3
      ∧ requestedPages tr = (List.range' 1 3).map Int.ofNat :=
  describeAllDomains_pages
    (Script.client ⟨fun _ p => Except.ok ⟨p, 500, 1200, [⟨str "7", str "example.com"⟩]⟩,
      fun _ => Except.ok [], fun _ => none, fun _ _ => none⟩)
    500 1200 3 ⟨0, []⟩ 3 (fun _ _ => ⟨_, rfl⟩) (by decide) (by decide) (by decide)
    describeAllDomains_witness_least (by decide) (by decide)

theorem describeAllDomains_more_fuel (c : DnsClient σ) (fuel : Nat) :
    ∀ (startPage : Int) (domains : List DomainInDescribeDomains) (w : World σ)
      (r : Except Error (List DomainInDescribeDomains) × World σ),
      describeAllDomains c fuel startPage domains w = some r →
      ∀ extra, describeAllDomains c (fuel + extra) startPage domains w = some r := by
  induction fuel with
  | zero => intro _ _ _ _ h; simp [describeAllDomains] at h
  | succ f ih =>
    intro startPage domains w r h extra
    have hfe : f + 1 + extra = (f + extra) + 1 := by omega
    rw [hfe]
    unfold describeAllDomains at h ⊢
    split
    · next err w1 heq => rw [heq] at h; exact h
    · next response w1 heq =>
      rw [heq] at h
      simp only [] at h ⊢
      split
      · next hc => rw [if_pos hc] at h; exact h
      · next hc => rw [if_neg hc] at h; exact ih _ _ _ _ h extra

/-- C4 (counterexample): the provider answers page `p` with page number `p`, page
size `2^62 + 1` and total count `2^62 + 2`.  The least positive `n` with
`n * s ≥ t` is `2`, but `2 * s` wraps around to a negative 64-bit value: after
pages `1, 2` the loop has not stopped, it stops after pages `1, ..., 5`, and no
amount of fuel makes it request exactly the pages `1, 2`. -/
theorem describeAllDomains_overflow :
    (1 : Int) ≤ 2 ^ 62 + 1
    ∧ (2 ^ 62 + 2 : Int) ≤ 2 * (2 ^ 62 + 1) ∧ ¬ (2 ^ 62 + 2 : Int) ≤ 1 * (2 ^ 62 + 1)
    ∧ describeAllDomains
        (Script.client ⟨fun _ p => Except.ok ⟨p, 2 ^ 62 + 1, 2 ^ 62 + 2, []⟩,
          fun _ => Except.ok [], fun _ => none, fun _ _ => none⟩) 2 1 [] ⟨0, []⟩ = none
    ∧ (describeAllDomains
        (Script.client ⟨fun _ p => Except.ok ⟨p, 2 ^ 62 + 1, 2 ^ 62 + 2, []⟩,
          fun _ => Except.ok [], fun _ => none, fun _ _ => none⟩) 5 1 [] ⟨0, []⟩).map
        (fun r => requestedPages r.2.trace) = some [1, 2, 3, 4, 5]
    ∧ ∀ fuel, (describeAllDomains
        (Script.client ⟨fun _ p => Except.ok ⟨p, 2 ^ 62 + 1, 2 ^ 62 + 2, []⟩,
          fun _ => Except.ok [], fun _ => none, fun _ _ => none⟩) fuel 1 [] ⟨0, []⟩).map
        (fun r => requestedPages r.2.trace) ≠ some [1, 2] := by
  refine ⟨by decide, by decide, by decide, by decide, by decide, ?_⟩
  intro fuel
  by_cases hf : fuel < 5
  · interval_cases fuel <;> decide
  · obtain ⟨extra, rfl⟩ : ∃ extra, fuel = 5 + extra := ⟨fuel - 5, by omega⟩
    have h5 : ∃ r, describeAllDomains
        (Script.client ⟨fun _ p => Except.ok ⟨p, 2 ^ 62 + 1, 2 ^ 62 + 2, []⟩,
          fun _ => Except.ok [], fun _ => none, fun _ _ => none⟩) 5 1 [] ⟨0, []⟩ = some r
        ∧ requestedPages r.2.trace = [1, 2, 3, 4, 5] := ⟨_, rfl, by decide⟩
    obtain ⟨r, hr, hp⟩ := h5
    rw [describeAllDomains_more_fuel _ 5 _ _ _ r hr extra]
    simp [hp]

/-! ## Traces -/

theorem addRequests_append (a b : List Event) :
    addRequests (a ++ b) = addRequests a ++ addRequests b := by
  induction a with
  | nil => rfl
  | cons e a ih => cases e <;> simp [addRequests, ih]

theorem deletedIds_append (a b : List Event) :
    deletedIds (a ++ b) = deletedIds a ++ deletedIds b := by
  induction a with
  | nil => rfl
  | cons e a ih => cases e <;> simp [deletedIds, ih]

theorem addRequests_of_describeDomains (tr : List Event)
    (h : ∀ e ∈ tr, e.isDescribeDomains = true) : addRequests tr = [] := by
  induction tr with
  | nil => rfl
  | cons e tr ih =>
    have he := h e (List.mem_cons_self _ _)
    have ht := ih (fun x hx => h x (List.mem_cons_of_mem _ hx))
    cases e <;> simp_all [addRequests, Event.isDescribeDomains]

theorem deletedIds_of_describeDomains (tr : List Event)
    (h : ∀ e ∈ tr, e.isDescribeDomains = true) : deletedIds tr = [] := by
  induction tr with
  | nil => rfl
  | cons e tr ih =>
    have he := h e (List.mem_cons_self _ _)
    have ht := ih (fun x hx => h x (List.mem_cons_of_mem _ hx))
    cases e <;> simp_all [deletedIds, Event.isDescribeDomains]

theorem isMutation_of_isDescribeDomains (e : Event) (h : e.isDescribeDomains = true) :
    e.isMutation = false := by
  cases e <;> simp_all [Event.isDescribeDomains, Event.isMutation]

theorem describeAllDomains_trace (c : DnsClient σ) (fuel : Nat) :
    ∀ (startPage : Int) (domains : List DomainInDescribeDomains) (w : World σ)
      (r : Except Error (List DomainInDescribeDomains)) (w1 : World σ),
      describeAllDomains c fuel startPage domains w = some (r, w1) →
      ∃ tr, w1.trace = w.trace ++ tr ∧ ∀ e ∈ tr, e.isDescribeDomains = true := by
  induction fuel with
  | zero => intro _ _ _ _ _ h; simp [describeAllDomains] at h
  | succ f ih =>
    intro startPage domains w r w1 h
    unfold describeAllDomains at h
    have hcall : (callDescribeDomains c startPage w).2.trace
        = w.trace ++ [Event.describeDomains startPage (callDescribeDomains c startPage w).1] := rfl
    split at h
    · next err w2 heq =>
      rw [heq] at hcall
      simp only [Option.some.injEq, Prod.mk.injEq] at h
      obtain ⟨-, rfl⟩ := h
      exact ⟨_, hcall, by simp [Event.isDescribeDomains]⟩
    · next response w2 heq =>
      rw [heq] at hcall
      simp only [] at h
      split at h
      · simp only [Option.some.injEq, Prod.mk.injEq] at h
        obtain ⟨-, rfl⟩ := h
        exact ⟨_, hcall, by simp [Event.isDescribeDomains]⟩
      · obtain ⟨tr, htr, hall⟩ := ih _ _ _ _ _ h
        refine ⟨Event.describeDomains startPage (Except.ok response) :: tr, ?_, ?_⟩
        · rw [htr, hcall]; simp
        · intro e he
          rcases List.mem_cons.mp he with rfl | he
          · rfl
          · exact hall e he

theorem getHostedZone_trace (c : DnsClient σ) (fuel : Nat) (resolvedZone : GoString)
    (w w1 : World σ) (r : GoString × GoString × Option Error)
    (h : getHostedZone c fuel resolvedZone w = some (r, w1)) :
    ∃ tr, w1.trace = w.trace ++ tr ∧ ∀ e ∈ tr, e.isDescribeDomains = true := by
  unfold getHostedZone at h
  split at h
  · simp at h
  · next err w2 heq =>
    simp only [Option.some.injEq, Prod.mk.injEq] at h
    obtain ⟨-, rfl⟩ := h
    exact describeAllDomains_trace c fuel _ _ _ _ _ heq
  · next domains w2 heq =>
    simp only [] at h
    split at h <;>
    · simp only [Option.some.injEq, Prod.mk.injEq] at h
      obtain ⟨-, rfl⟩ := h
      exact describeAllDomains_trace c fuel _ _ _ _ _ heq

/-! ## Present -/

/-- C5: when zone resolution succeeds with zone name `N`, `Present` makes, after
the domain-listing calls of the resolution, exactly one further call: an add-record
call of type `TXT` for domain `N`, relative name `extractRecordName fqdn N` and the
given key.  That call is the last call of the run; `Present` returns success when it
succeeds and an error wrapping its failure when it fails. -/
theorem Present_issues_one_add (c : DnsClient σ) (fuel : Nat)
    (resolvedZone resolvedFQDN key : GoString) (w w1 : World σ) (zoneId N : GoString)
    (hzone : getHostedZone c fuel resolvedZone w = some ((zoneId, N, none), w1)) :
    ∃ tr answer w2,
      Present c fuel resolvedZone resolvedFQDN key w
        = some (answer.map (fun err => str "alicloud: error adding domain record: " ++ err), w2)
      ∧ (answer, w2.provider)
        = c.AddDomainRecord w1.provider ⟨str "TXT", N, extractRecordName resolvedFQDN N, key⟩
      ∧ w2.trace = w.trace ++ tr
          ++ [Event.addDomainRecord ⟨str "TXT", N, extractRecordName resolvedFQDN N, key⟩ answer]
      ∧ (∀ e ∈ tr, e.isDescribeDomains = true)
      ∧ addRequests w2.trace
        = addRequests w.trace ++ [⟨str "TXT", N, extractRecordName resolvedFQDN N, key⟩] := by
  obtain ⟨tr, htr, hall⟩ := getHostedZone_trace c fuel resolvedZone w w1 _ hzone
  refine ⟨tr, (c.AddDomainRecord w1.provider (newTxtRecord N resolvedFQDN key)).1,
    (callAddDomainRecord c (newTxtRecord N resolvedFQDN key) w1).2, ?_, rfl, ?_, hall, ?_⟩
  · simp only [Present, hzone]
    cases hans : (c.AddDomainRecord w1.provider (newTxtRecord N resolvedFQDN key)).1 with
    | none => simp [callAddDomainRecord, hans]
    | some err => simp [callAddDomainRecord, hans]
  · simp [callAddDomainRecord, htr, newTxtRecord]
  · simp [callAddDomainRecord, htr, newTxtRecord, addRequests_append,
      addRequests_of_describeDomains tr hall, addRequests]

theorem Present_issues_one_add_witness :
    ∃ tr answer w2,
      Present healthyScript.client 1 (str "example.com.") (str "_acme-challenge.example.com.")
          (str "token") ⟨0, []⟩
        = some (answer.map (fun err => str "alicloud: error adding domain record: " ++ err), w2)
      ∧ (answer, w2.provider)
        = healthyScript.client.AddDomainRecord
            (⟨1, [Event.describeDomains 1 (onePage exampleDomains 1)]⟩ : World Nat).provider
            ⟨str "TXT", str "example.com",
              extractRecordName (str "_acme-challenge.example.com.") (str "example.com"),
              str "token"⟩
      ∧ w2.trace = [] ++ tr
          ++ [Event.addDomainRecord ⟨str "TXT", str "example.com",
              extractRecordName (str "_acme-challenge.example.com.") (str "example.com"),
              str "token"⟩ answer]
      ∧ (∀ e ∈ tr, e.isDescribeDomains = true)
      ∧ addRequests w2.trace
        = addRequests [] ++ [⟨str "TXT", str "example.com",
            extractRecordName (str "_acme-challenge.example.com.") (str "example.com"),
            str "token"⟩] :=
  Present_issues_one_add healthyScript.client 1 (str "example.com.")
    (str "_acme-challenge.example.com.") (str "token") ⟨0, []⟩
    ⟨1, [Event.describeDomains 1 (onePage exampleDomains 1)]⟩ (str "2") (str "example.com")
    (by decide)

/-! ## CleanUp -/

theorem deleteMatching_all_succeed (c : DnsClient σ) (delKey : GoString) :
    ∀ (records : List Record) (w : World σ),
      deletesSucceed c ((records.filter (fun r => decide (r.Value = delKey))).map Record.RecordId)
        w.provider = true →
      deleteMatching c delKey records w
        = (none,
            ⟨stateAfterDeletes c
                ((records.filter (fun r => decide (r.Value = delKey))).map Record.RecordId)
                w.provider,
              w.trace ++ (records.filter (fun r => decide (r.Value = delKey))).map
                (fun r => Event.deleteDomainRecord r.RecordId none)⟩) := by
  intro records
  induction records with
  | nil => intro w _; simp [deleteMatching, stateAfterDeletes]
  | cons r rs ih =>
    intro w h
    by_cases hv : r.Value = delKey
    · simp only [List.filter_cons, hv, decide_True, if_true, List.map_cons, deletesSucceed,
        Bool.and_eq_true, Option.isNone_iff_eq_none] at h
      obtain ⟨hnone, hrest⟩ := h
      have hstep := ih ⟨(c.DeleteDomainRecord w.provider r.RecordId).2,
        w.trace ++ [Event.deleteDomainRecord r.RecordId none]⟩ hrest
      simp only [deleteMatching, hv, if_true, callDeleteDomainRecord, hnone, hstep,
        List.filter_cons, decide_True, List.map_cons, stateAfterDeletes]
      simp
    · have hv' : ¬ delKey = r.Value := fun h => hv h.symm
      simp only [List.filter_cons, hv, decide_False] at h ⊢
      simp only [deleteMatching, hv', if_false]
      exact ih w h

theorem deletedIds_map_delete (records : List Record) :
    deletedIds (records.map (fun r => Event.deleteDomainRecord r.RecordId none))
      = records.map Record.RecordId := by
  induction records with
  | nil => rfl
  | cons r rs ih => simp [deletedIds, ih]

theorem filter_name_value (listing : List Record) (recordName delKey : GoString) :
    (listing.filter (fun r => decide (r.RR = recordName))).filter
        (fun r => decide (r.Value = delKey))
      = listing.filter (fun r => decide (r.RR = recordName) && decide (r.Value = delKey)) := by
  rw [List.filter_filter]
  congr 1
  funext r
  exact Bool.and_comm _ _

theorem CleanUp_reaches_deletion (c : DnsClient σ) (fuel : Nat)
    (resolvedZone resolvedFQDN delKey : GoString) (w w1 w3 : World σ)
    (zoneId N zoneId2 N2 : GoString) (listing : List Record)
    (hzone : getHostedZone c fuel resolvedZone w = some ((zoneId, N, none), w1))
    (hlist : (callDescribeDomainRecords c N 500 w1).1 = Except.ok listing)
    (hzone2 : getHostedZone c fuel resolvedZone (callDescribeDomainRecords c N 500 w1).2
      = some ((zoneId2, N2, none), w3)) :
    CleanUp c fuel resolvedZone resolvedFQDN delKey w
        = some (deleteMatching c delKey
            (listing.filter (fun r => decide (r.RR = extractRecordName resolvedFQDN N))) w3)
      ∧ deletedIds w3.trace = deletedIds w.trace := by
  have hpair : callDescribeDomainRecords c N 500 w1
      = (Except.ok listing, (callDescribeDomainRecords c N 500 w1).2) := by
    rw [← hlist]
  constructor
  · have hfind : findTxtRecords c fuel resolvedZone resolvedFQDN w
        = some ((listing.filter (fun r => decide (r.RR = extractRecordName resolvedFQDN N)),
            none), (callDescribeDomainRecords c N 500 w1).2) := by
      simp only [findTxtRecords, hzone]
      rw [hpair]
    simp only [CleanUp, hfind, hzone2]
  · obtain ⟨tr1, htr1, hall1⟩ := getHostedZone_trace c fuel resolvedZone w w1 _ hzone
    obtain ⟨tr3, htr3, hall3⟩ := getHostedZone_trace c fuel resolvedZone _ w3 _ hzone2
    rw [htr3]
    simp [callDescribeDomainRecords, htr1, deletedIds_append,
      deletedIds_of_describeDomains tr1 hall1, deletedIds_of_describeDomains tr3 hall3,
      deletedIds]

/-- C6: when both zone resolutions and the record listing succeed and the delete
calls for the listed records whose relative name equals
`extractRecordName fqdn N` and whose value equals `delKey` all succeed, `CleanUp`
returns success, and the delete calls it issues are exactly the ids of those
records, one call per record and in listing order: the provider is left in the
state reached by answering those delete calls in that order, and the trace grows by
exactly those calls. -/
theorem CleanUp_deletes_matching (c : DnsClient σ) (fuel : Nat)
    (resolvedZone resolvedFQDN delKey : GoString) (w w1 w3 : World σ)
    (zoneId N zoneId2 N2 : GoString) (listing : List Record)
    (hzone : getHostedZone c fuel resolvedZone w = some ((zoneId, N, none), w1))
    (hlist : (callDescribeDomainRecords c N 500 w1).1 = Except.ok listing)
    (hzone2 : getHostedZone c fuel resolvedZone (callDescribeDomainRecords c N 500 w1).2
      = some ((zoneId2, N2, none), w3))
    (hdel : deletesSucceed c
      ((listing.filter (fun r => decide (r.RR = extractRecordName resolvedFQDN N)
        && decide (r.Value = delKey))).map Record.RecordId) w3.provider = true) :
    ∃ w4, CleanUp c fuel resolvedZone resolvedFQDN delKey w = some (none, w4)
      ∧ w4.provider = stateAfterDeletes c
          ((listing.filter (fun r => decide (r.RR = extractRecordName resolvedFQDN N)
              && decide (r.Value = delKey))).map Record.RecordId) w3.provider
      ∧ w4.trace = w3.trace
          ++ (listing.filter (fun r => decide (r.RR = extractRecordName resolvedFQDN N)
              && decide (r.Value = delKey))).map
            (fun r => Event.deleteDomainRecord r.RecordId none)
      ∧ deletedIds w4.trace = deletedIds w.trace
          ++ (listing.filter (fun r => decide (r.RR = extractRecordName resolvedFQDN N)
              && decide (r.Value = delKey))).map Record.RecordId := by
  obtain ⟨hrun, hids⟩ := CleanUp_reaches_deletion c fuel resolvedZone resolvedFQDN delKey
    w w1 w3 zoneId N zoneId2 N2 listing hzone hlist hzone2
  rw [← filter_name_value] at hdel
  have hloop := deleteMatching_all_succeed c delKey _ w3 hdel
  rw [filter_name_value] at hloop
  rw [hrun, hloop]
  refine ⟨_, rfl, rfl, rfl, ?_⟩
  simp only [deletedIds_append, hids, deletedIds_map_delete]

theorem CleanUp_deletes_matching_witness :
    ∃ w4, CleanUp healthyScript.client 1 (str "example.com.")
          (str "_acme-challenge.example.com.") (str "token") ⟨0, []⟩ = some (none, w4)
      ∧ w4.provider = 5
      ∧ w4.trace
        = [Event.describeDomains 1 (onePage exampleDomains 1),
            Event.describeDomainRecords (str "example.com") 500 (Except.ok exampleRecords),
            Event.describeDomains 1 (onePage exampleDomains 1),
            Event.deleteDomainRecord (str "r1") none, Event.deleteDomainRecord (str "r4") none]
      ∧ deletedIds w4.trace = [str "r1", str "r4"] :=
  CleanUp_deletes_matching healthyScript.client 1 (str "example.com.")
    (str "_acme-challenge.example.com.") (str "token") ⟨0, []⟩
    ⟨1, [Event.describeDomains 1 (onePage exampleDomains 1)]⟩
    ⟨3, [Event.describeDomains 1 (onePage exampleDomains 1),
      Event.describeDomainRecords (str "example.com") 500 (Except.ok exampleRecords),
      Event.describeDomains 1 (onePage exampleDomains 1)]⟩
    (str "2") (str "example.com") (str "2") (str "example.com") exampleRecords
    (by decide) (by decide) (by decide) (by decide)

/-- C8: failures that occur before the mutating call are returned without issuing
it.  If zone resolution fails (listing error or zone not found), `Present` returns
an error and `CleanUp` returns an error; if the record listing fails, `CleanUp`
returns an error; if the second zone resolution of `CleanUp` fails, `CleanUp`
returns an error.  In each case no add-record and no delete-record call has been
issued when the operation returns. -/
theorem errors_before_mutation (c : DnsClient σ) (fuel : Nat)
    (resolvedZone resolvedFQDN value : GoString) (w : World σ) :
    (∀ zoneId N err w1,
      getHostedZone c fuel resolvedZone w = some ((zoneId, N, some err), w1) →
      Present c fuel resolvedZone resolvedFQDN value w
          = some (some (str "alicloud: error getting hosted zones: " ++ err), w1)
        ∧ CleanUp c fuel resolvedZone resolvedFQDN value w
          = some (some (str "alicloud: error finding txt records: " ++ err), w1)
        ∧ ∃ tr, w1.trace = w.trace ++ tr ∧ ∀ e ∈ tr, e.isMutation = false)
    ∧ (∀ zoneId N err w1,
      getHostedZone c fuel resolvedZone w = some ((zoneId, N, none), w1) →
      (callDescribeDomainRecords c N 500 w1).1 = Except.error err →
      CleanUp c fuel resolvedZone resolvedFQDN value w
          = some (some (str "alicloud: error finding txt records: "
              ++ (str "alicloud: error describing domain records: " ++ err)),
            (callDescribeDomainRecords c N 500 w1).2)
        ∧ ∃ tr, (callDescribeDomainRecords c N 500 w1).2.trace = w.trace ++ tr
          ∧ ∀ e ∈ tr, e.isMutation = false)
    ∧ (∀ zoneId N listing zoneId2 N2 err w1 w3,
      getHostedZone c fuel resolvedZone w = some ((zoneId, N, none), w1) →
      (callDescribeDomainRecords c N 500 w1).1 = Except.ok listing →
      getHostedZone c fuel resolvedZone (callDescribeDomainRecords c N 500 w1).2
        = some ((zoneId2, N2, some err), w3) →
      CleanUp c fuel resolvedZone resolvedFQDN value w
          = some (some (str "alicloud: " ++ err), w3)
        ∧ ∃ tr, w3.trace = w.trace ++ tr ∧ ∀ e ∈ tr, e.isMutation = false) := by
  refine ⟨?_, ?_, ?_⟩
  · intro zoneId N err w1 hzone
    obtain ⟨tr, htr, hall⟩ := getHostedZone_trace c fuel resolvedZone w w1 _ hzone
    refine ⟨?_, ?_, tr, htr, fun e he => isMutation_of_isDescribeDomains e (hall e he)⟩
    · simp [Present, hzone]
    · simp [CleanUp, findTxtRecords, hzone]
  · intro zoneId N err w1 hzone hlist
    obtain ⟨tr, htr, hall⟩ := getHostedZone_trace c fuel resolvedZone w w1 _ hzone
    have hpair : callDescribeDomainRecords c N 500 w1
        = (Except.error err, (callDescribeDomainRecords c N 500 w1).2) := by
      rw [← hlist]
    constructor
    · have hfind : findTxtRecords c fuel resolvedZone resolvedFQDN w
          = some (([], some (str "alicloud: error describing domain records: " ++ err)),
              (callDescribeDomainRecords c N 500 w1).2) := by
        simp only [findTxtRecords, hzone]
        rw [hpair]
      simp only [CleanUp, hfind]
    · refine ⟨tr ++ [Event.describeDomainRecords N 500
        (c.DescribeDomainRecords w1.provider N 500).1], ?_, ?_⟩
      · simp [callDescribeDomainRecords, htr]
      · intro e he
        rcases List.mem_append.mp he with he | he
        · exact isMutation_of_isDescribeDomains e (hall e he)
        · rw [List.mem_singleton.mp he]; rfl
  · intro zoneId N listing zoneId2 N2 err w1 w3 hzone hlist hzone2
    obtain ⟨tr, htr, hall⟩ := getHostedZone_trace c fuel resolvedZone w w1 _ hzone
    obtain ⟨tr3, htr3, hall3⟩ := getHostedZone_trace c fuel resolvedZone _ w3 _ hzone2
    have hpair : callDescribeDomainRecords c N 500 w1
        = (Except.ok listing, (callDescribeDomainRecords c N 500 w1).2) := by
      rw [← hlist]
    constructor
    · have hfind : findTxtRecords c fuel resolvedZone resolvedFQDN w
          = some ((listing.filter (fun r => decide (r.RR = extractRecordName resolvedFQDN N)),
              none), (callDescribeDomainRecords c N 500 w1).2) := by
        simp only [findTxtRecords, hzone]
        rw [hpair]
      simp only [CleanUp, hfind, hzone2]
    · refine ⟨tr ++ [Event.describeDomainRecords N 500
        (c.DescribeDomainRecords w1.provider N 500).1] ++ tr3, ?_, ?_⟩
      · rw [htr3]; simp [callDescribeDomainRecords, htr]
      · intro e he
        rcases List.mem_append.mp he with he | he
        · rcases List.mem_append.mp he with he | he
          · exact isMutation_of_isDescribeDomains e (hall e he)
          · rw [List.mem_singleton.mp he]; rfl
        · exact isMutation_of_isDescribeDomains e (hall3 e he)

theorem errors_before_mutation_witness :
    (Present (failingDomainsScript 0).client 1 (str "example.com.")
          (str "_acme-challenge.example.com.") (str "token") ⟨0, []⟩
        = some (some (str
            "alicloud: error getting hosted zones: alicloud: error describing domains: timeout"),
          ⟨1, [Event.describeDomains 1 (Except.error (str "timeout"))]⟩)
      ∧ CleanUp (failingDomainsScript 0).client 1 (str "example.com.")
          (str "_acme-challenge.example.com.") (str "token") ⟨0, []⟩
        = some (some (str
            "alicloud: error finding txt records: alicloud: error describing domains: timeout"),
          ⟨1, [Event.describeDomains 1 (Except.error (str "timeout"))]⟩)
      ∧ ∃ tr, [Event.describeDomains 1 (Except.error (str "timeout"))] = [] ++ tr
        ∧ ∀ e ∈ tr, e.isMutation = false)
    ∧ (CleanUp failingRecordsScript.client 1 (str "example.com.")
          (str "_acme-challenge.example.com.") (str "token") ⟨0, []⟩
        = some (some (str ("alicloud: error finding txt records: "
            ++ "alicloud: error describing domain records: timeout")),
          ⟨2, [Event.describeDomains 1 (onePage exampleDomains 1),
            Event.describeDomainRecords (str "example.com") 500
              (Except.error (str "timeout"))]⟩)
      ∧ ∃ tr, [Event.describeDomains 1 (onePage exampleDomains 1),
            Event.describeDomainRecords (str "example.com") 500
              (Except.error (str "timeout"))] = [] ++ tr
        ∧ ∀ e ∈ tr, e.isMutation = false)
    ∧ (CleanUp (failingDomainsScript 2).client 1 (str "example.com.")
          (str "_acme-challenge.example.com.") (str "token") ⟨0, []⟩
        = some (some (str "alicloud: alicloud: error describing domains: timeout"),
          ⟨3, [Event.describeDomains 1 (onePage exampleDomains 1),
            Event.describeDomainRecords (str "example.com") 500 (Except.ok exampleRecords),
            Event.describeDomains 1 (Except.error (str "timeout"))]⟩)
      ∧ ∃ tr, [Event.describeDomains 1 (onePage exampleDomains 1),
            Event.describeDomainRecords (str "example.com") 500 (Except.ok exampleRecords),
            Event.describeDomains 1 (Except.error (str "timeout"))] = [] ++ tr
        ∧ ∀ e ∈ tr, e.isMutation = false) :=
  ⟨(errors_before_mutation (failingDomainsScript 0).client 1 (str "example.com.")
      (str "_acme-challenge.example.com.") (str "token") ⟨0, []⟩).1 [] []
      (str "alicloud: error describing domains: timeout")
      ⟨1, [Event.describeDomains 1 (Except.error (str "timeout"))]⟩ (by decide),
    (errors_before_mutation failingRecordsScript.client 1 (str "example.com.")
      (str "_acme-challenge.example.com.") (str "token") ⟨0, []⟩).2.1 (str "2")
      (str "example.com") (str "timeout")
      ⟨1, [Event.describeDomains 1 (onePage exampleDomains 1)]⟩ (by decide) (by decide),
    (errors_before_mutation (failingDomainsScript 2).client 1 (str "example.com.")
      (str "_acme-challenge.example.com.") (str "token") ⟨0, []⟩).2.2 (str "2")
      (str "example.com") exampleRecords [] []
      (str "alicloud: error describing domains: timeout")
      ⟨1, [Event.describeDomains 1 (onePage exampleDomains 1)]⟩
      ⟨3, [Event.describeDomains 1 (onePage exampleDomains 1),
        Event.describeDomainRecords (str "example.com") 500 (Except.ok exampleRecords),
        Event.describeDomains 1 (Except.error (str "timeout"))]⟩
      (by decide) (by decide) (by decide)⟩

/-! ## Present followed by CleanUp on the model provider -/

theorem model_DescribeDomains (listDomains : Int → Except Error DescribeDomainsResponse)
    (newId : List Record → GoString) (st : List Record) (p : Int) :
    (modelClient listDomains newId).DescribeDomains st p = (listDomains p, st) := rfl

theorem model_DescribeDomainRecords (listDomains : Int → Except Error DescribeDomainsResponse)
    (newId : List Record → GoString) (st : List Record) (name : GoString) (pageSize : Int) :
    (modelClient listDomains newId).DescribeDomainRecords st name pageSize
      = (Except.ok (st.take pageSize.toNat), st) := rfl

theorem model_AddDomainRecord (listDomains : Int → Except Error DescribeDomainsResponse)
    (newId : List Record → GoString) (st : List Record) (request : AddDomainRecordRequest) :
    (modelClient listDomains newId).AddDomainRecord st request
      = (none, st ++ [⟨request.RR, newId st, request.Value⟩]) := rfl

theorem model_DeleteDomainRecord (listDomains : Int → Except Error DescribeDomainsResponse)
    (newId : List Record → GoString) (st : List Record) (i : GoString) :
    (modelClient listDomains newId).DeleteDomainRecord st i
      = (none, st.filter (fun r => decide (r.RecordId ≠ i))) := rfl

theorem model_describeAllDomains (listDomains : Int → Except Error DescribeDomainsResponse)
    (newId : List Record → GoString) (fuel : Nat) :
    ∀ (p : Int) (acc : List DomainInDescribeDomains) (st : List Record) (t : List Event)
      (r : Except Error (List DomainInDescribeDomains)) (w : World (List Record)),
      describeAllDomains (modelClient listDomains newId) fuel p acc ⟨st, t⟩ = some (r, w) →
      ∃ tr, w = ⟨st, t ++ tr⟩ ∧ ∀ st2 t2,
        describeAllDomains (modelClient listDomains newId) fuel p acc ⟨st2, t2⟩
          = some (r, ⟨st2, t2 ++ tr⟩) := by
  induction fuel with
  | zero => intro _ _ _ _ _ _ h; simp [describeAllDomains] at h
  | succ f ih =>
    intro p acc st t r w h
    cases hl : listDomains p with
    | error err =>
      simp only [describeAllDomains, callDescribeDomains, model_DescribeDomains, hl, Option.some.injEq,
        Prod.mk.injEq] at h
      obtain ⟨rfl, rfl⟩ := h
      refine ⟨[Event.describeDomains p (Except.error err)], rfl, ?_⟩
      intro st2 t2
      simp [describeAllDomains, callDescribeDomains, model_DescribeDomains, hl]
    | ok response =>
      simp only [describeAllDomains, callDescribeDomains, model_DescribeDomains, hl] at h
      by_cases hc : wrapInt64 (response.PageNumber * response.PageSize) ≥ response.TotalCount
      · simp only [hc, if_true, Option.some.injEq, Prod.mk.injEq] at h
        obtain ⟨rfl, rfl⟩ := h
        refine ⟨[Event.describeDomains p (Except.ok response)], rfl, ?_⟩
        intro st2 t2
        simp [describeAllDomains, callDescribeDomains, model_DescribeDomains, hl, hc]
      · simp only [hc, if_false] at h
        obtain ⟨tr, rfl, hall⟩ := ih _ _ _ _ _ _ h
        refine ⟨Event.describeDomains p (Except.ok response) :: tr, by simp, ?_⟩
        intro st2 t2
        simp only [describeAllDomains, callDescribeDomains, model_DescribeDomains, hl, hc, if_false]
        rw [hall]
        simp

theorem model_getHostedZone (listDomains : Int → Except Error DescribeDomainsResponse)
    (newId : List Record → GoString) (fuel : Nat) (resolvedZone : GoString)
    (st : List Record) (t : List Event) (r : GoString × GoString × Option Error)
    (w : World (List Record))
    (h : getHostedZone (modelClient listDomains newId) fuel resolvedZone ⟨st, t⟩ = some (r, w)) :
    ∃ tr, w = ⟨st, t ++ tr⟩ ∧ ∀ st2 t2,
      getHostedZone (modelClient listDomains newId) fuel resolvedZone ⟨st2, t2⟩
        = some (r, ⟨st2, t2 ++ tr⟩) := by
  unfold getHostedZone at h
  split at h
  · simp at h
  · next err w2 heq =>
    simp only [Option.some.injEq, Prod.mk.injEq] at h
    obtain ⟨rfl, rfl⟩ := h
    obtain ⟨tr, rfl, hall⟩ := model_describeAllDomains listDomains newId fuel _ _ _ _ _ _ heq
    refine ⟨tr, rfl, ?_⟩
    intro st2 t2
    simp [getHostedZone, hall]
  · next domains w2 heq =>
    obtain ⟨tr, rfl, hall⟩ := model_describeAllDomains listDomains newId fuel _ _ _ _ _ _ heq
    simp only [] at h
    split at h
    · next hid =>
      simp only [Option.some.injEq, Prod.mk.injEq] at h
      obtain ⟨rfl, rfl⟩ := h
      refine ⟨tr, rfl, ?_⟩
      intro st2 t2
      simp [getHostedZone, hall, hid]
    · next hid =>
      simp only [Option.some.injEq, Prod.mk.injEq] at h
      obtain ⟨rfl, rfl⟩ := h
      refine ⟨tr, rfl, ?_⟩
      intro st2 t2
      simp [getHostedZone, hall, hid]

theorem model_deletesSucceed (listDomains : Int → Except Error DescribeDomainsResponse)
    (newId : List Record → GoString) (ids : List GoString) :
    ∀ st, deletesSucceed (modelClient listDomains newId) ids st = true := by
  induction ids with
  | nil => intro _; rfl
  | cons i ids ih => intro st; simp [deletesSucceed, model_DeleteDomainRecord, ih]

theorem model_stateAfterDeletes (listDomains : Int → Except Error DescribeDomainsResponse)
    (newId : List Record → GoString) (ids : List GoString) :
    ∀ st, stateAfterDeletes (modelClient listDomains newId) ids st
      = st.filter (fun r => decide (r.RecordId ∉ ids)) := by
  induction ids with
  | nil => intro st; simp [stateAfterDeletes]
  | cons i ids ih =>
    intro st
    simp only [stateAfterDeletes, model_DeleteDomainRecord, ih, List.filter_filter]
    congr 1
    funext r
    by_cases h1 : r.RecordId = i <;> by_cases h2 : r.RecordId ∈ ids <;> simp [h1, h2]

theorem filter_by_matching_ids (store : List Record) (p : Record → Bool)
    (hnodup : (store.map Record.RecordId).Nodup) :
    store.filter (fun r => decide (r.RecordId ∉ (store.filter p).map Record.RecordId))
      = store.filter (fun r => !p r) := by
  apply List.filter_congr
  intro r hr
  have hinj := List.inj_on_of_nodup_map hnodup
  by_cases hp : p r = true
  · have hmem : r.RecordId ∈ (store.filter p).map Record.RecordId :=
      List.mem_map.mpr ⟨r, List.mem_filter.mpr ⟨hr, hp⟩, rfl⟩
    simp [hmem, hp]
  · have hnot : r.RecordId ∉ (store.filter p).map Record.RecordId := by
      intro hmem
      obtain ⟨q, hq, hid⟩ := List.mem_map.mp hmem
      obtain ⟨hq1, hq2⟩ := List.mem_filter.mp hq
      have : q = r := hinj hq1 hr hid
      exact hp (this ▸ hq2)
    simp [hnot, hp]

/-- C10: on the model provider, with fresh ids for added records, a store with
unique record ids and fewer than 500 entries, and a succeeding zone resolution
with zone name `N`, running `Present` and then `CleanUp` with the same zone, FQDN
and value returns success twice; the store then holds exactly the records of the
initial store whose relative name differs from `extractRecordName F N` or whose
value differs from `K`, in their original order, and no record with that relative
name and value. -/
theorem Present_then_CleanUp (listDomains : Int → Except Error DescribeDomainsResponse)
    (newId : List Record → GoString) (fuel : Nat) (Z F K : GoString) (store : List Record)
    (trace : List Event) (zoneId N : GoString) (w1 : World (List Record))
    (hfresh : ∀ st, newId st ∉ st.map Record.RecordId)
    (hnodup : (store.map Record.RecordId).Nodup)
    (hlen : store.length < 500)
    (hzone : getHostedZone (modelClient listDomains newId) fuel Z ⟨store, trace⟩
      = some ((zoneId, N, none), w1)) :
    ∃ w2 w3,
      Present (modelClient listDomains newId) fuel Z F K ⟨store, trace⟩ = some (none, w2)
      ∧ CleanUp (modelClient listDomains newId) fuel Z F K w2 = some (none, w3)
      ∧ w2.provider = store ++ [⟨extractRecordName F N, newId store, K⟩]
      ∧ w3.provider = store.filter
          (fun r => !(decide (r.RR = extractRecordName F N) && decide (r.Value = K)))
      ∧ ∀ r ∈ w3.provider, ¬ (r.RR = extractRecordName F N ∧ r.Value = K) := by
  obtain ⟨tr, rfl, hall⟩ := model_getHostedZone listDomains newId fuel Z store trace _ _ hzone
  have hpresent : Present (modelClient listDomains newId) fuel Z F K ⟨store, trace⟩
      = some (none, ⟨store ++ [⟨extractRecordName F N, newId store, K⟩],
          trace ++ tr ++ [Event.addDomainRecord (newTxtRecord N F K) none]⟩) := by
    simp only [Present, hzone, callAddDomainRecord, model_AddDomainRecord]
    rfl
  have hlen2 : (store ++ [(⟨extractRecordName F N, newId store, K⟩ : Record)]).length ≤ 500 := by
    simp; omega
  have hnodup2 : ((store ++ [(⟨extractRecordName F N, newId store, K⟩ : Record)]).map
      Record.RecordId).Nodup := by
    rw [List.map_append, List.nodup_append]
    refine ⟨hnodup, by simp, ?_⟩
    intro a ha hb
    simp only [List.map_cons, List.map_nil, List.mem_singleton] at hb
    exact hfresh store (hb ▸ ha)
  have htake : (500 : Int).toNat = 500 := by decide
  obtain ⟨hrun, -⟩ := CleanUp_reaches_deletion (modelClient listDomains newId) fuel Z F K
    ⟨store ++ [⟨extractRecordName F N, newId store, K⟩],
      trace ++ tr ++ [Event.addDomainRecord (newTxtRecord N F K) none]⟩
    ⟨store ++ [⟨extractRecordName F N, newId store, K⟩],
      trace ++ tr ++ [Event.addDomainRecord (newTxtRecord N F K) none] ++ tr⟩
    ⟨store ++ [⟨extractRecordName F N, newId store, K⟩],
      trace ++ tr ++ [Event.addDomainRecord (newTxtRecord N F K) none] ++ tr
        ++ [Event.describeDomainRecords N 500
          (Except.ok (store ++ [⟨extractRecordName F N, newId store, K⟩]))] ++ tr⟩
    zoneId N zoneId N (store ++ [⟨extractRecordName F N, newId store, K⟩])
    (hall _ _)
    (by simp [callDescribeDomainRecords, model_DescribeDomainRecords, htake,
      List.take_of_length_le hlen2])
    (by
      have hw : (callDescribeDomainRecords (modelClient listDomains newId) N 500
          ⟨store ++ [⟨extractRecordName F N, newId store, K⟩],
            trace ++ tr ++ [Event.addDomainRecord (newTxtRecord N F K) none] ++ tr⟩).2
          = ⟨store ++ [⟨extractRecordName F N, newId store, K⟩],
            trace ++ tr ++ [Event.addDomainRecord (newTxtRecord N F K) none] ++ tr
              ++ [Event.describeDomainRecords N 500
                (Except.ok (store ++ [⟨extractRecordName F N, newId store, K⟩]))]⟩ := by
        simp [callDescribeDomainRecords, model_DescribeDomainRecords, htake,
          List.take_of_length_le hlen2]
      rw [hw]
      exact hall _ _)
  have hloop := deleteMatching_all_succeed (modelClient listDomains newId) K
    ((store ++ [(⟨extractRecordName F N, newId store, K⟩ : Record)]).filter
      (fun r => decide (r.RR = extractRecordName F N)))
    ⟨store ++ [⟨extractRecordName F N, newId store, K⟩],
      trace ++ tr ++ [Event.addDomainRecord (newTxtRecord N F K) none] ++ tr
        ++ [Event.describeDomainRecords N 500
          (Except.ok (store ++ [⟨extractRecordName F N, newId store, K⟩]))] ++ tr⟩
    (model_deletesSucceed listDomains newId _ _)
  rw [hloop] at hrun
  have hfinal : stateAfterDeletes (modelClient listDomains newId)
      ((((store ++ [(⟨extractRecordName F N, newId store, K⟩ : Record)]).filter
        (fun r => decide (r.RR = extractRecordName F N))).filter
          (fun r => decide (r.Value = K))).map Record.RecordId)
      (store ++ [⟨extractRecordName F N, newId store, K⟩])
      = store.filter
          (fun r => !(decide (r.RR = extractRecordName F N) && decide (r.Value = K))) := by
    rw [model_stateAfterDeletes, filter_name_value, filter_by_matching_ids _ _ hnodup2,
      List.filter_append]
    simp
  refine ⟨_, _, hpresent, hrun, rfl, hfinal, ?_⟩
  intro r hr
  have hr2 : r ∈ store.filter
      (fun r => !(decide (r.RR = extractRecordName F N) && decide (r.Value = K))) := by
    rw [← hfinal]; exact hr
  have hnot := (List.mem_filter.mp hr2).2
  simp only [Bool.not_eq_true', Bool.and_eq_false_iff, decide_eq_false_iff_not] at hnot
  rintro ⟨h1, h2⟩
  rcases hnot with h | h
  · exact h h1
  · exact h h2

theorem longerId_fresh (st : List Record) : longerId st ∉ st.map Record.RecordId := by
  intro hmem
  obtain ⟨r, hr, hid⟩ := List.mem_map.mp hmem
  have hle : r.RecordId.length ≤ (st.map (fun r => r.RecordId.length)).sum :=
    List.single_le_sum (by simp) _ (List.mem_map.mpr ⟨r, hr, rfl⟩)
  have hlen : r.RecordId.length = (st.map (fun r => r.RecordId.length)).sum + 1 := by
    rw [hid, longerId, List.length_replicate]
  omega

theorem Present_then_CleanUp_witness :
    ∃ w2 w3,
      Present (modelClient (onePage exampleDomains) longerId) 1 (str "example.com.")
          (str "_acme-challenge.example.com.") (str "token") ⟨exampleRecords, []⟩
        = some (none, w2)
      ∧ CleanUp (modelClient (onePage exampleDomains) longerId) 1 (str "example.com.")
          (str "_acme-challenge.example.com.") (str "token") w2 = some (none, w3)
      ∧ w2.provider = exampleRecords
          ++ [⟨str "_acme-challenge", longerId exampleRecords, str "token"⟩]
      ∧ w3.provider = [⟨str "www", str "r2", str "token"⟩,
          ⟨str "_acme-challenge", str "r3", str "other"⟩]
      ∧ ∀ r ∈ w3.provider, ¬ (r.RR = str "_acme-challenge" ∧ r.Value = str "token") :=
  Present_then_CleanUp (onePage exampleDomains) longerId 1 (str "example.com.")
    (str "_acme-challenge.example.com.") (str "token") exampleRecords []
    (str "2") (str "example.com")
    ⟨exampleRecords, [Event.describeDomains 1 (onePage exampleDomains 1)]⟩
    longerId_fresh (by decide) (by decide) (by decide)

end AliDNS
